import Mathlib

/-!
Shallow embedding of the whiteboard-server room/turn state machine
(`src/index.js`): the room registry (`rooms`), the per-socket room
association (`socket.roomName`), the socket.io broadcast groups
(`socket.join` / automatic leave on disconnect), and the event handlers
`join-room`, `pass-turn`, the four turn-gated drawing events, and
`disconnect`.  Handlers are modelled as pure functions from server state
to (new state, list of outbound messages).
-/

/-- A room's state: `users` (join order) and `currentTurnIndex`,
mirroring the `rooms[roomName] = { users, currentTurnIndex }` objects. -/
structure Room where
  users : List String
  currentTurnIndex : Nat
deriving DecidableEq

/-- The global `rooms` object: room name to room state (absent = `undefined`). -/
def Registry := String → Option Room

/-- Whole-server state: the registry, each socket's stored `socket.roomName`,
and the socket.io group membership used by `io.in` / `socket.to`. -/
structure ServerState where
  rooms : Registry
  assoc : String → Option String
  groups : String → List String

/-- Payload of a drawing-class event: the `room` key plus the other
drawing fields, kept opaque. -/
structure DrawData where
  room : String
  rest : String
deriving DecidableEq

/-- The four drawing-class inbound events routed through `handleDrawEvent`. -/
inductive DrawKind where
  | startDrawing
  | drawing
  | finishDrawing
  | clearCanvas
deriving DecidableEq

/-- Outbound messages.  `turnUpdate` and `serverClearCanvas` are emitted with
`io.in(room)` (whole group); the three `server-*-drawing` relays are emitted
with `socket.to(room)` and record the excluded sender. -/
inductive Msg where
  | turnUpdate (room : String) (active : Option String)
  | serverStartDrawing (room : String) (sender : String) (data : DrawData)
  | serverDrawing (room : String) (sender : String) (data : DrawData)
  | serverFinishDrawing (room : String) (sender : String)
  | serverClearCanvas (room : String)
deriving DecidableEq

/-- Models `rooms[roomName] = r` (JS object property assignment). -/
def setRoom (rs : Registry) (roomName : String) (r : Room) : Registry :=
  fun m => if m = roomName then some r else rs m

/-- Models `delete rooms[roomName]`. -/
def deleteRoom (rs : Registry) (roomName : String) : Registry :=
  fun m => if m = roomName then none else rs m

/-- Helper `getActiveUser`: `null` for a missing or empty room, else
`room.users[room.currentTurnIndex]` (which is `undefined`, here `none`,
when the index is out of bounds). -/
def getActiveUser (rs : Registry) (roomName : String) : Option String :=
  match rs roomName with
  | none => none
  | some room =>
      if room.users.length = 0 then none
      else room.users[room.currentTurnIndex]?

/-- Helper `broadcastTurnUpdate`: `io.in(roomName).emit('turn-update', activeSocketId)`. -/
def broadcastTurnUpdate (rs : Registry) (roomName : String) : List Msg :=
  [Msg.turnUpdate roomName (getActiveUser rs roomName)]

/-- Helper `passTurn`: no-op for a missing or empty room, otherwise advance
`currentTurnIndex` modulo the member count and broadcast the turn update. -/
def passTurn (rs : Registry) (roomName : String) : Registry × List Msg :=
  match rs roomName with
  | none => (rs, [])
  | some room =>
      if room.users.length = 0 then (rs, [])
      else
        let room2 : Room :=
          { room with currentTurnIndex := (room.currentTurnIndex + 1) % room.users.length }
        let rs2 := setRoom rs roomName room2
        (rs2, broadcastTurnUpdate rs2 roomName)

/-- Models `socket.join(roomName)`: socket.io adds the socket to the broadcast
group unless it is already a member. -/
def joinGroup (gs : String → List String) (roomName sid : String) :
    String → List String :=
  fun m =>
    if m = roomName then
      if sid ∈ gs roomName then gs roomName else gs roomName ++ [sid]
    else gs m

/-- The `join-room` handler: `socket.join`, store `socket.roomName`,
create the room if absent, push the socket id, broadcast the turn update. -/
def joinRoom (st : ServerState) (sid roomName : String) :
    ServerState × List Msg :=
  let groups2 := joinGroup st.groups roomName sid
  let assoc2 := fun c => if c = sid then some roomName else st.assoc c
  let room :=
    match st.rooms roomName with
    | none => { users := [], currentTurnIndex := 0 : Room }
    | some r => r
  let room2 : Room := { room with users := room.users ++ [sid] }
  let rooms2 := setRoom st.rooms roomName room2
  ({ rooms := rooms2, assoc := assoc2, groups := groups2 },
    broadcastTurnUpdate rooms2 roomName)

/-- The relay performed by each drawing-class handler once the turn gate
has passed. -/
def drawRelay (sid : String) (kind : DrawKind) (data : DrawData) : List Msg :=
  match kind with
  | .startDrawing => [Msg.serverStartDrawing data.room sid data]
  | .drawing => [Msg.serverDrawing data.room sid data]
  | .finishDrawing => [Msg.serverFinishDrawing data.room sid]
  | .clearCanvas => [Msg.serverClearCanvas data.room]

/-- Gate `handleDrawEvent`: relay only when the sender is the active user of
`data.room`; otherwise silently ignore.  The registry is never touched. -/
def handleDrawEvent (st : ServerState) (sid : String) (kind : DrawKind)
    (data : DrawData) : ServerState × List Msg :=
  if getActiveUser st.rooms data.room = some sid then (st, drawRelay sid kind data)
  else (st, [])

/-- Models how socket.io removes a disconnecting socket from every broadcast group
before the `disconnect` handler runs. -/
def leaveAllGroups (gs : String → List String) (sid : String) :
    String → List String :=
  fun m => (gs m).filter (fun id => id ≠ sid)

/-- The `disconnect` handler.  Looks up `socket.roomName`; if that room
exists: records whether it was the leaver's turn, filters the leaver out of
`users`, deletes the room if now empty (no broadcast), otherwise resets the
index to 0 when the leaver was active, or else recomputes the index from
`getActiveUser` evaluated on the already-mutated list (the new list at the
old index), falling back to 0 when `indexOf` misses, and broadcasts. -/
def disconnect (st : ServerState) (sid : String) : ServerState × List Msg :=
  let st1 : ServerState := { st with groups := leaveAllGroups st.groups sid }
  match st1.assoc sid with
  | none => (st1, [])
  | some roomName =>
      match st1.rooms roomName with
      | none => (st1, [])
      | some room =>
          let wasTheirTurn := getActiveUser st1.rooms roomName = some sid
          let newUsers := room.users.filter (fun id => id ≠ sid)
          if newUsers.length = 0 then
            ({ st1 with rooms := deleteRoom st1.rooms roomName }, [])
          else
            if wasTheirTurn then
              let rooms2 := setRoom st1.rooms roomName
                { users := newUsers, currentTurnIndex := 0 }
              ({ st1 with rooms := rooms2 }, broadcastTurnUpdate rooms2 roomName)
            else
              let rooms1 := setRoom st1.rooms roomName
                { room with users := newUsers }
              let activeUser := getActiveUser rooms1 roomName
              let newIndex :=
                match activeUser with
                | none => 0
                | some u => if u ∈ newUsers then newUsers.indexOf u else 0
              let rooms2 := setRoom rooms1 roomName
                { users := newUsers, currentTurnIndex := newIndex }
              ({ st1 with rooms := rooms2 }, broadcastTurnUpdate rooms2 roomName)

/-- Inbound events, each tagged with the emitting socket's id. -/
inductive Event where
  | join (sid roomName : String)
  | passTurnEv (sid roomName : String)
  | draw (sid : String) (kind : DrawKind) (data : DrawData)
  | disconnectEv (sid : String)

/-- One event-loop step: dispatch to the matching handler.  The `pass-turn`
handler never consults the sender's identity. -/
def step (st : ServerState) (e : Event) : ServerState × List Msg :=
  match e with
  | .join sid roomName => joinRoom st sid roomName
  | .passTurnEv _sid roomName =>
      let p := passTurn st.rooms roomName
      ({ st with rooms := p.1 }, p.2)
  | .draw sid kind data => handleDrawEvent st sid kind data
  | .disconnectEv sid => disconnect st sid

/-- Fresh server: empty registry, no associations, empty groups. -/
def initState : ServerState :=
  { rooms := fun _ => none, assoc := fun _ => none, groups := fun _ => [] }

/-- Run a list of inbound events from the fresh server state. -/
def runEvents (es : List Event) : ServerState :=
  es.foldl (fun st e => (step st e).1) initState

/-- Recipient set of an outbound message, from the socket.io groups:
`io.in(room)` reaches the whole group, `socket.to(room)` the group minus
the sender. -/
def recipients (st : ServerState) : Msg → List String
  | .turnUpdate room _ => st.groups room
  | .serverStartDrawing room sender _ =>
      (st.groups room).filter (fun id => id ≠ sender)
  | .serverDrawing room sender _ =>
      (st.groups room).filter (fun id => id ≠ sender)
  | .serverFinishDrawing room sender =>
      (st.groups room).filter (fun id => id ≠ sender)
  | .serverClearCanvas room => st.groups room

theorem setRoom_same (rs : Registry) (n : String) (r : Room) :
    setRoom rs n r n = some r := by
  simp [setRoom]

theorem setRoom_ne (rs : Registry) (n m : String) (r : Room) (h : m ≠ n) :
    setRoom rs n r m = rs m := by
  simp [setRoom, h]

theorem deleteRoom_same (rs : Registry) (n : String) : deleteRoom rs n n = none := by
  simp [deleteRoom]

theorem deleteRoom_ne (rs : Registry) (n m : String) (h : m ≠ n) :
    deleteRoom rs n m = rs m := by
  simp [deleteRoom, h]

theorem handleDrawEvent_fst (st : ServerState) (sid : String) (kind : DrawKind)
    (data : DrawData) : (handleDrawEvent st sid kind data).1 = st := by
  unfold handleDrawEvent
  split <;> rfl

theorem getActiveUser_mem (rs : Registry) (roomName : String) (u : String)
    (h : getActiveUser rs roomName = some u) :
    ∃ room, rs roomName = some room ∧ u ∈ room.users := by
  unfold getActiveUser at h
  split at h
  next => exact absurd h (by simp)
  next room heq =>
    split at h
    next => exact absurd h (by simp)
    next => exact ⟨room, heq, List.getElem?_mem h⟩

/-- The event trace exhibiting the disconnect-handler turn shift: A, B, C
join room r1, A passes the turn (active becomes B), then the non-active
member A disconnects. -/
def bugTrace : List Event :=
  [Event.join "A" "r1", Event.join "B" "r1", Event.join "C" "r1",
   Event.passTurnEv "A" "r1", Event.disconnectEv "A"]

/-- C1: counter-evaluation.  Before the removal the active connection of
room r1 is B, and the leaver A is a non-active member; after A's
disconnect the handler leaves `currentTurnIndex` at 1 on the shrunk list
`[B, C]`, so the active connection becomes C rather than the previously
active B — the handler reads the active identity from the already-mutated
list instead of capturing it before the mutation. -/
theorem nonactive_leave_shifts_turn :
    getActiveUser (runEvents (bugTrace.take 4)).rooms "r1" = some "B" ∧
    (runEvents (bugTrace.take 4)).rooms "r1" =
      some { users := ["A", "B", "C"], currentTurnIndex := 1 } ∧
    (runEvents (bugTrace.take 4)).assoc "A" = some "r1" ∧
    (runEvents bugTrace).rooms "r1" =
      some { users := ["B", "C"], currentTurnIndex := 1 } ∧
    getActiveUser (runEvents bugTrace).rooms "r1" = some "C" ∧
    getActiveUser (runEvents bugTrace).rooms "r1" ≠ some "B" := by
  decide

/-- C7: counterexample to "appends `connId` to `members` if not already
present" — the handler pushes unconditionally, so a second join of the same
connection duplicates it in the member list. -/
theorem join_dedup_counterexample :
    (runEvents [Event.join "A" "r1", Event.join "A" "r1"]).rooms "r1" =
      some { users := ["A", "A"], currentTurnIndex := 0 } ∧
    (runEvents [Event.join "A" "r1", Event.join "A" "r1"]).rooms "r1" ≠
      some { users := ["A"], currentTurnIndex := 0 } := by
  decide

/-- C7 (amended): `join` creates an absent room with `activeIndex = 0` and
appends the connection id to `members` unconditionally; for an existing
room `activeIndex` is unchanged and, while it stays in bounds, so is the
active connection; the handler broadcasts a `turn-update` carrying the
current active connection's identity; rooms with other names are
untouched. -/
theorem join_appends (st : ServerState) (sid roomName : String) :
    (st.rooms roomName = none →
      (joinRoom st sid roomName).1.rooms roomName =
        some { users := [sid], currentTurnIndex := 0 }) ∧
    (∀ room, st.rooms roomName = some room →
      (joinRoom st sid roomName).1.rooms roomName =
        some { users := room.users ++ [sid],
               currentTurnIndex := room.currentTurnIndex }) ∧
    (∀ room, st.rooms roomName = some room →
      room.currentTurnIndex < room.users.length →
      getActiveUser (joinRoom st sid roomName).1.rooms roomName =
        getActiveUser st.rooms roomName) ∧
    (joinRoom st sid roomName).2 =
      [Msg.turnUpdate roomName
        (getActiveUser (joinRoom st sid roomName).1.rooms roomName)] ∧
    (∀ m, m ≠ roomName → (joinRoom st sid roomName).1.rooms m = st.rooms m) := by
  refine ⟨?_, ?_, ?_, rfl, ?_⟩
  · intro h
    simp only [joinRoom, h, setRoom_same, List.nil_append]
  · intro room h
    simp only [joinRoom, h, setRoom_same]
  · intro room h hidx
    simp only [joinRoom, h, getActiveUser, setRoom_same]
    have hlen : room.users.length + 1 ≠ 0 := by omega
    have hlen0 : room.users.length ≠ 0 := by omega
    simp only [List.length_append, List.length_cons, List.length_nil, hlen,
      if_neg hlen, hlen0, if_neg hlen0]
    exact List.getElem?_append_left hidx
  · intro m hm
    simp only [joinRoom]
    exact setRoom_ne _ _ _ _ hm

/-- C7 witness: A then B join the fresh room r1; the registry ends with
`members = [A, B]`, `activeIndex = 0`, and B's join broadcast a
`turn-update` carrying A. -/
theorem join_appends_witness :
    (joinRoom (joinRoom initState "A" "r1").1 "B" "r1").1.rooms "r1" =
      some { users := ["A", "B"], currentTurnIndex := 0 } ∧
    (joinRoom (joinRoom initState "A" "r1").1 "B" "r1").2 =
      [Msg.turnUpdate "r1" (some "A")] := by
  constructor
  · exact (join_appends (joinRoom initState "A" "r1").1 "B" "r1").2.1
      { users := ["A"], currentTurnIndex := 0 } (by decide)
  · have h := (join_appends (joinRoom initState "A" "r1").1 "B" "r1").2.2.2.1
    rw [h]
    have h2 := (join_appends (joinRoom initState "A" "r1").1 "B" "r1").2.2.1
      { users := ["A"], currentTurnIndex := 0 } (by decide) (by decide)
    rw [h2]
    decide

/-- C3: the turn gate silently drops any drawing-class event whose sender
is not the active connection of the named room — in particular when the
room is absent from the registry or the sender is not a member — emitting
no outbound message and no error reply. -/
theorem turn_gate_drop (st : ServerState) (sid : String) (kind : DrawKind)
    (data : DrawData) :
    (getActiveUser st.rooms data.room ≠ some sid →
      handleDrawEvent st sid kind data = (st, [])) ∧
    (st.rooms data.room = none → handleDrawEvent st sid kind data = (st, [])) ∧
    (∀ room, st.rooms data.room = some room → sid ∉ room.users →
      handleDrawEvent st sid kind data = (st, [])) := by
  have hdrop : getActiveUser st.rooms data.room ≠ some sid →
      handleDrawEvent st sid kind data = (st, []) := by
    intro h
    unfold handleDrawEvent
    rw [if_neg h]
  refine ⟨hdrop, ?_, ?_⟩
  · intro h
    apply hdrop
    unfold getActiveUser
    rw [h]
    simp
  · intro room h hmem
    apply hdrop
    intro hact
    obtain ⟨room2, hr2, hmem2⟩ := getActiveUser_mem st.rooms data.room sid hact
    rw [h] at hr2
    cases hr2
    exact hmem hmem2

/-- A concrete server state used to instantiate theorems: room r1 holds
A, B, C with A active, room r2 holds D alone. -/
def sampleState : ServerState :=
  { rooms := fun m =>
      if m = "r1" then some { users := ["A", "B", "C"], currentTurnIndex := 0 }
      else if m = "r2" then some { users := ["D"], currentTurnIndex := 0 }
      else none,
    assoc := fun c =>
      if c = "A" ∨ c = "B" ∨ c = "C" then some "r1"
      else if c = "D" then some "r2"
      else none,
    groups := fun m =>
      if m = "r1" then ["A", "B", "C"]
      else if m = "r2" then ["D"]
      else [] }

/-- C3 witness: in `sampleState` the active connection of r1 is A, so a
drawing event from B is dropped with no outbound message. -/
theorem turn_gate_drop_witness :
    handleDrawEvent sampleState "B" DrawKind.drawing
      { room := "r1", rest := "stroke" } = (sampleState, []) :=
  (turn_gate_drop sampleState "B" DrawKind.drawing
    { room := "r1", rest := "stroke" }).1 (by decide)

/-- C8: every drawing-class event leaves the whole server state (registry,
associations, groups) unchanged; an accepted event only emits its relay,
a rejected one emits nothing; the start/drawing/finish relays exclude the
sender from the recipient group, while clear-canvas goes to the entire
group, sender included. -/
theorem draw_frame (st : ServerState) (sid : String) (kind : DrawKind)
    (data : DrawData) :
    (handleDrawEvent st sid kind data).1 = st ∧
    (getActiveUser st.rooms data.room = some sid →
      (handleDrawEvent st sid kind data).2 = drawRelay sid kind data) ∧
    (getActiveUser st.rooms data.room ≠ some sid →
      (handleDrawEvent st sid kind data).2 = []) ∧
    (kind ≠ DrawKind.clearCanvas →
      ∀ m ∈ drawRelay sid kind data, sid ∉ recipients st m) ∧
    (kind = DrawKind.clearCanvas →
      drawRelay sid kind data = [Msg.serverClearCanvas data.room] ∧
      recipients st (Msg.serverClearCanvas data.room) = st.groups data.room) := by
  refine ⟨handleDrawEvent_fst st sid kind data, ?_, ?_, ?_, ?_⟩
  · intro h
    unfold handleDrawEvent
    rw [if_pos h]
  · intro h
    unfold handleDrawEvent
    rw [if_neg h]
  · intro hk m hm
    cases kind with
    | clearCanvas => exact absurd rfl hk
    | startDrawing =>
        simp only [drawRelay, List.mem_singleton] at hm
        subst hm
        simp [recipients, List.mem_filter]
    | drawing =>
        simp only [drawRelay, List.mem_singleton] at hm
        subst hm
        simp [recipients, List.mem_filter]
    | finishDrawing =>
        simp only [drawRelay, List.mem_singleton] at hm
        subst hm
        simp [recipients, List.mem_filter]
  · intro hk
    subst hk
    exact ⟨rfl, rfl⟩

/-- C8 witness: A (active in r1) sends a drawing event: the state is
unchanged, the relay is emitted, and A is excluded from its recipients;
a clear-canvas from A reaches the whole group including A. -/
theorem draw_frame_witness :
    (handleDrawEvent sampleState "A" DrawKind.drawing
      { room := "r1", rest := "stroke" }).1 = sampleState ∧
    (handleDrawEvent sampleState "A" DrawKind.drawing
      { room := "r1", rest := "stroke" }).2 =
      drawRelay "A" DrawKind.drawing { room := "r1", rest := "stroke" } ∧
    "A" ∉ recipients sampleState
      (Msg.serverDrawing "r1" "A" { room := "r1", rest := "stroke" }) ∧
    recipients sampleState (Msg.serverClearCanvas "r1") =
      sampleState.groups "r1" := by
  refine ⟨(draw_frame sampleState "A" DrawKind.drawing
      { room := "r1", rest := "stroke" }).1, ?_, ?_, ?_⟩
  · exact (draw_frame sampleState "A" DrawKind.drawing
      { room := "r1", rest := "stroke" }).2.1 (by decide)
  · exact (draw_frame sampleState "A" DrawKind.drawing
      { room := "r1", rest := "stroke" }).2.2.2.1 (by decide)
      (Msg.serverDrawing "r1" "A" { room := "r1", rest := "stroke" }) (by decide)
  · exact ((draw_frame sampleState "A" DrawKind.clearCanvas
      { room := "r1", rest := "stroke" }).2.2.2.2 rfl).2

/-- C10: the pass-turn handler never checks that the sender belongs to the
room: for any existing non-empty room, a pass-turn from a sender who is
not a member still advances `currentTurnIndex` modulo the member count and
broadcasts the turn update; the outcome is identical for every possible
sender. -/
theorem pass_turn_sender_unchecked (st : ServerState) (sender roomName : String)
    (room : Room) (hr : st.rooms roomName = some room)
    (hn : 0 < room.users.length) (hmem : sender ∉ room.users) :
    (step st (Event.passTurnEv sender roomName)).1.rooms roomName =
      some { room with
        currentTurnIndex := (room.currentTurnIndex + 1) % room.users.length } ∧
    (step st (Event.passTurnEv sender roomName)).2 =
      [Msg.turnUpdate roomName
        (getActiveUser (step st (Event.passTurnEv sender roomName)).1.rooms roomName)] ∧
    (∀ other : String,
      step st (Event.passTurnEv sender roomName) =
        step st (Event.passTurnEv other roomName)) := by
  have hlen : room.users.length ≠ 0 := by omega
  refine ⟨?_, ?_, fun other => rfl⟩
  · simp only [step, passTurn, hr, hlen, ite_false, setRoom_same]
  · simp only [step, passTurn, hr, hlen, ite_false, broadcastTurnUpdate, setRoom_same]

/-- C10 witness: Z is not a member of r1, yet Z's pass-turn advances the
turn from A to B. -/
theorem pass_turn_sender_unchecked_witness :
    (step sampleState (Event.passTurnEv "Z" "r1")).1.rooms "r1" =
      some { users := ["A", "B", "C"], currentTurnIndex := 1 } ∧
    (step sampleState (Event.passTurnEv "Z" "r1")).2 =
      [Msg.turnUpdate "r1"
        (getActiveUser (step sampleState (Event.passTurnEv "Z" "r1")).1.rooms "r1")] := by
  have h := pass_turn_sender_unchecked sampleState "Z" "r1"
    { users := ["A", "B", "C"], currentTurnIndex := 0 }
    (by decide) (by decide) (by decide)
  exact ⟨h.1, h.2.1⟩

/-- C6: when the sole member of a room disconnects, the room entry is
deleted from the registry in the same operation, no message is broadcast,
and a subsequent `getActiveUser` query for that name returns none. -/
theorem last_member_leave_deletes (st : ServerState) (sid roomName : String)
    (room : Room) (ha : st.assoc sid = some roomName)
    (hr : st.rooms roomName = some room) (hu : room.users = [sid]) :
    (disconnect st sid).1.rooms roomName = none ∧
    (disconnect st sid).2 = [] ∧
    getActiveUser (disconnect st sid).1.rooms roomName = none := by
  have hfilter : room.users.filter (fun id => id ≠ sid) = [] := by
    rw [hu]; simp
  simp only [disconnect, ha, hr, hfilter, List.length_nil, ite_true, deleteRoom_same]
  refine ⟨trivial, trivial, ?_⟩
  simp [getActiveUser, deleteRoom_same]

/-- C6 witness: D is the sole member of r2; after D's disconnect the room
is gone, nothing was broadcast, and the active-user query yields none. -/
theorem last_member_leave_deletes_witness :
    (disconnect sampleState "D").1.rooms "r2" = none ∧
    (disconnect sampleState "D").2 = [] ∧
    getActiveUser (disconnect sampleState "D").1.rooms "r2" = none :=
  last_member_leave_deletes sampleState "D" "r2"
    { users := ["D"], currentTurnIndex := 0 } (by decide) (by decide) (by decide)

/-- C5: when the active connection of a room with at least two distinct
members disconnects, it is removed from `users`, `currentTurnIndex` resets
to 0, and a `turn-update` carrying the member now at index 0 is broadcast;
when the socket.io group mirrored the member list, the recipients are
exactly the remaining members. -/
theorem active_leave_resets (st : ServerState) (sid roomName : String)
    (room : Room) (ha : st.assoc sid = some roomName)
    (hr : st.rooms roomName = some room)
    (hact : getActiveUser st.rooms roomName = some sid)
    (hnd : room.users.Nodup)
    (hlen : 2 ≤ room.users.length) :
    room.users.filter (fun id => id ≠ sid) ≠ [] ∧
    sid ∉ room.users.filter (fun id => id ≠ sid) ∧
    (disconnect st sid).1.rooms roomName =
      some { users := room.users.filter (fun id => id ≠ sid),
             currentTurnIndex := 0 } ∧
    (disconnect st sid).2 =
      [Msg.turnUpdate roomName ((room.users.filter (fun id => id ≠ sid))[0]?)] ∧
    (st.groups roomName = room.users →
      recipients (disconnect st sid).1
          (Msg.turnUpdate roomName ((room.users.filter (fun id => id ≠ sid))[0]?)) =
        room.users.filter (fun id => id ≠ sid)) := by
  have h1 : 1 < room.users.length := hlen
  have h0 : 0 < room.users.length := by omega
  have hab : room.users[0] ≠ room.users[1] := by
    intro hEq
    have h01 := (List.Nodup.getElem_inj_iff hnd).1 hEq
    omega
  have hne : room.users.filter (fun id => id ≠ sid) ≠ [] := by
    rcases eq_or_ne (room.users[0]) sid with hcase | hcase
    · have hb : room.users[1] ≠ sid := by rw [← hcase]; exact fun hEq => hab hEq.symm
      have hmem : room.users[1] ∈ room.users.filter (fun id => id ≠ sid) := by
        rw [List.mem_filter]
        exact ⟨List.getElem_mem h1, by simpa using hb⟩
      exact List.ne_nil_of_mem hmem
    · have hmem : room.users[0] ∈ room.users.filter (fun id => id ≠ sid) := by
        rw [List.mem_filter]
        exact ⟨List.getElem_mem h0, by simpa using hcase⟩
      exact List.ne_nil_of_mem hmem
  have hlen0 : ¬(room.users.filter (fun id => id ≠ sid)).length = 0 := by
    simpa [List.length_eq_zero] using hne
  have hnot : sid ∉ room.users.filter (fun id => id ≠ sid) := by
    simp [List.mem_filter]
  have hActNew : getActiveUser (setRoom st.rooms roomName
      { users := room.users.filter (fun id => id ≠ sid), currentTurnIndex := 0 })
      roomName = (room.users.filter (fun id => id ≠ sid))[0]? := by
    simp [getActiveUser, setRoom_same, hlen0]
  refine ⟨hne, hnot, ?_, ?_, ?_⟩
  · simp only [disconnect, ha, hr, hact, hlen0, ite_true, ite_false, setRoom_same]
  · simp only [disconnect, ha, hr, hact, hlen0, ite_true, ite_false,
      broadcastTurnUpdate, hActNew]
  · intro hg
    simp only [disconnect, ha, hr, hact, hlen0, ite_true, ite_false,
      recipients, leaveAllGroups, hg]

/-- C5 witness: A is active in r1 = [A, B, C]; after A's disconnect the
room holds [B, C] with index 0 and a `turn-update` carrying B was
broadcast to recipients [B, C]. -/
theorem active_leave_resets_witness :
    (disconnect sampleState "A").1.rooms "r1" =
      some { users := ["B", "C"], currentTurnIndex := 0 } ∧
    (disconnect sampleState "A").2 = [Msg.turnUpdate "r1" (some "B")] ∧
    recipients (disconnect sampleState "A").1 (Msg.turnUpdate "r1" (some "B")) =
      ["B", "C"] := by
  have h := active_leave_resets sampleState "A" "r1"
    { users := ["A", "B", "C"], currentTurnIndex := 0 }
    (by decide) (by decide) (by decide) (by decide) (by decide)
  exact ⟨h.2.2.1, h.2.2.2.1, h.2.2.2.2 (by decide)⟩

theorem disconnect_rooms_ne (st : ServerState) (sid m : String)
    (h : ∀ rn, st.assoc sid = some rn → m ≠ rn) :
    (disconnect st sid).1.rooms m = st.rooms m := by
  simp only [disconnect]
  split
  next => rfl
  next rn heq =>
    have hm : m ≠ rn := h rn heq
    split
    next => rfl
    next room hroom =>
      split
      · simp [deleteRoom, hm]
      · split
        · simp [setRoom, hm]
        · simp [setRoom, hm]

theorem disconnect_removes_sid (st : ServerState) (sid rn : String)
    (ha : st.assoc sid = some rn) (room : Room)
    (h : (disconnect st sid).1.rooms rn = some room) :
    sid ∉ room.users := by
  simp only [disconnect, ha] at h
  split at h
  next hroom =>
    dsimp only at h
    rw [hroom] at h
    exact absurd h (by simp)
  next room0 hroom =>
    split at h
    next =>
      simp [deleteRoom] at h
    next =>
      split at h
      · simp [setRoom] at h
        subst h
        simp [List.mem_filter]
      · simp [setRoom] at h
        subst h
        simp [List.mem_filter]

theorem joinRoom_mem (st : ServerState) (sid roomName : String) :
    ∃ room, (joinRoom st sid roomName).1.rooms roomName = some room ∧
      sid ∈ room.users := by
  unfold joinRoom
  dsimp only
  refine ⟨_, setRoom_same _ _ _, ?_⟩
  simp

/-- C9: a connection that joins room r1 and then room r2 has its stored
room association overwritten to r2; on disconnect it is removed only from
r2's member list (or r2 is deleted), while it remains in r1's member
list. -/
theorem second_join_leaks (st : ServerState) (sid r1 r2 : String)
    (hne : r1 ≠ r2) :
    (joinRoom (joinRoom st sid r1).1 sid r2).1.assoc sid = some r2 ∧
    (∃ room,
      (disconnect (joinRoom (joinRoom st sid r1).1 sid r2).1 sid).1.rooms r1 =
        some room ∧ sid ∈ room.users) ∧
    (∀ room,
      (disconnect (joinRoom (joinRoom st sid r1).1 sid r2).1 sid).1.rooms r2 =
        some room → sid ∉ room.users) := by
  have hassoc : (joinRoom (joinRoom st sid r1).1 sid r2).1.assoc sid = some r2 := by
    simp [joinRoom]
  refine ⟨hassoc, ?_, ?_⟩
  · obtain ⟨room1, hr1, hmem1⟩ := joinRoom_mem st sid r1
    have h21 : (joinRoom (joinRoom st sid r1).1 sid r2).1.rooms r1 =
        (joinRoom st sid r1).1.rooms r1 := by
      simp only [joinRoom]
      exact setRoom_ne _ _ _ _ hne
    have hro : (disconnect (joinRoom (joinRoom st sid r1).1 sid r2).1 sid).1.rooms r1 =
        (joinRoom (joinRoom st sid r1).1 sid r2).1.rooms r1 := by
      refine disconnect_rooms_ne _ _ _ ?_
      intro rn hr
      rw [hassoc] at hr
      cases hr
      exact hne
    exact ⟨room1, by rw [hro, h21, hr1], hmem1⟩
  · intro room h
    exact disconnect_removes_sid _ _ _ hassoc room h

/-- C9 witness: A joins ra then rb, then disconnects: A's association
ended at rb, A still sits in ra's member list, and rb holds no entry
containing A. -/
theorem second_join_leaks_witness :
    (joinRoom (joinRoom initState "A" "ra").1 "A" "rb").1.assoc "A" = some "rb" ∧
    (∃ room,
      (disconnect (joinRoom (joinRoom initState "A" "ra").1 "A" "rb").1 "A").1.rooms "ra" =
        some room ∧ "A" ∈ room.users) ∧
    (∀ room,
      (disconnect (joinRoom (joinRoom initState "A" "ra").1 "A" "rb").1 "A").1.rooms "rb" =
        some room → "A" ∉ room.users) :=
  second_join_leaks initState "A" "ra" "rb" (by decide)

/-- Well-formedness of the registry: every room present is non-empty and
its turn index is in bounds. -/
def RegistryWF (rs : Registry) : Prop :=
  ∀ roomName room, rs roomName = some room →
    0 < room.users.length ∧ room.currentTurnIndex < room.users.length

theorem joinRoom_WF (st : ServerState) (sid roomName : String)
    (h : RegistryWF st.rooms) : RegistryWF (joinRoom st sid roomName).1.rooms := by
  intro n room hn
  by_cases hcase : n = roomName
  · subst hcase
    cases hb : st.rooms n with
    | none =>
        simp only [joinRoom, hb, setRoom_same, Option.some_inj] at hn
        subst hn
        exact ⟨by simp, by simp⟩
    | some r =>
        simp only [joinRoom, hb, setRoom_same, Option.some_inj] at hn
        subst hn
        have hwf := h n r hb
        refine ⟨by simp, ?_⟩
        simp only [List.length_append, List.length_cons, List.length_nil]
        omega
  · have heq : (joinRoom st sid roomName).1.rooms n = st.rooms n := by
      simp only [joinRoom]
      exact setRoom_ne _ _ _ _ hcase
    rw [heq] at hn
    exact h n room hn

theorem passTurn_WF (rs : Registry) (roomName : String)
    (h : RegistryWF rs) : RegistryWF (passTurn rs roomName).1 := by
  intro n room hn
  cases hb : rs roomName with
  | none =>
      simp only [passTurn, hb] at hn
      exact h n room hn
  | some r =>
      by_cases h0 : r.users.length = 0
      · simp only [passTurn, hb, h0, ite_true] at hn
        exact h n room hn
      · simp only [passTurn, hb, h0, ite_false] at hn
        by_cases hcase : n = roomName
        · subst hcase
          rw [setRoom_same, Option.some_inj] at hn
          subst hn
          refine ⟨?_, ?_⟩
          · show 0 < r.users.length
            omega
          · show (r.currentTurnIndex + 1) % r.users.length < r.users.length
            exact Nat.mod_lt _ (by omega)
        · rw [setRoom_ne _ _ _ _ hcase] at hn
          exact h n room hn

theorem disconnect_WF (st : ServerState) (sid : String)
    (h : RegistryWF st.rooms) : RegistryWF (disconnect st sid).1.rooms := by
  intro n room hn
  cases ha : st.assoc sid with
  | none =>
      simp only [disconnect, ha] at hn
      exact h n room hn
  | some rn =>
      cases hb : st.rooms rn with
      | none =>
          simp only [disconnect, ha, hb] at hn
          exact h n room hn
      | some r =>
          by_cases hf : (r.users.filter (fun id => id ≠ sid)).length = 0
          · simp only [disconnect, ha, hb, hf, ite_true] at hn
            by_cases hcase : n = rn
            · subst hcase
              rw [deleteRoom_same] at hn
              exact absurd hn (by simp)
            · rw [deleteRoom_ne _ _ _ hcase] at hn
              exact h n room hn
          · by_cases hw : getActiveUser st.rooms rn = some sid
            · simp only [disconnect, ha, hb, hf, hw, ite_true, ite_false] at hn
              by_cases hcase : n = rn
              · subst hcase
                rw [setRoom_same, Option.some_inj] at hn
                subst hn
                constructor
                · show 0 < (r.users.filter (fun id => id ≠ sid)).length
                  omega
                · show 0 < (r.users.filter (fun id => id ≠ sid)).length
                  omega
              · rw [setRoom_ne _ _ _ _ hcase] at hn
                exact h n room hn
            · simp only [disconnect, ha, hb, hf, hw, ite_false] at hn
              by_cases hcase : n = rn
              · subst hcase
                rw [setRoom_same, Option.some_inj] at hn
                subst hn
                constructor
                · show 0 < (r.users.filter (fun id => id ≠ sid)).length
                  omega
                · dsimp only
                  have hact : getActiveUser
                      (setRoom st.rooms n
                        { r with users := r.users.filter (fun id => id ≠ sid) }) n =
                      (r.users.filter (fun id => id ≠ sid))[r.currentTurnIndex]? := by
                    simp only [getActiveUser, setRoom_same]
                    rw [if_neg hf]
                  rw [hact]
                  cases hu : (r.users.filter (fun id => id ≠ sid))[r.currentTurnIndex]? with
                  | none =>
                      simp only [hu]
                      omega
                  | some u =>
                      simp only [hu]
                      have hmem := List.getElem?_mem hu
                      rw [if_pos hmem]
                      exact List.indexOf_lt_length.2 hmem
              · rw [setRoom_ne _ _ _ _ hcase, setRoom_ne _ _ _ _ hcase] at hn
                exact h n room hn

theorem step_WF (st : ServerState) (e : Event)
    (h : RegistryWF st.rooms) : RegistryWF (step st e).1.rooms := by
  cases e with
  | join sid roomName => exact joinRoom_WF st sid roomName h
  | passTurnEv sid roomName => exact passTurn_WF st.rooms roomName h
  | draw sid kind data =>
      rw [show (step st (Event.draw sid kind data)).1 = st from
        handleDrawEvent_fst st sid kind data]
      exact h
  | disconnectEv sid => exact disconnect_WF st sid h

theorem runEvents_WF (es : List Event) : RegistryWF (runEvents es).rooms := by
  have hgen : ∀ (l : List Event) (st : ServerState), RegistryWF st.rooms →
      RegistryWF (l.foldl (fun s e => (step s e).1) st).rooms := by
    intro l
    induction l with
    | nil => intro st h; exact h
    | cons e t ih => intro st h; exact ih _ (step_WF st e h)
  refine hgen es initState ?_
  intro n room hn
  exact absurd hn (by simp [initState])

/-- C2: after any sequence of operations from the fresh server, every room
present in the registry satisfies `0 < members` and
`0 ≤ activeIndex < len(members)` (here with a natural-number index). -/
theorem registry_invariant (es : List Event) (roomName : String) (room : Room)
    (h : (runEvents es).rooms roomName = some room) :
    0 < room.users.length ∧ room.currentTurnIndex < room.users.length :=
  runEvents_WF es roomName room h

/-- C2 witness: after a single join, room r1 holds one member with index 0,
which satisfies the bounds. -/
theorem registry_invariant_witness :
    0 < ({ users := ["A"], currentTurnIndex := 0 } : Room).users.length ∧
    ({ users := ["A"], currentTurnIndex := 0 } : Room).currentTurnIndex <
      ({ users := ["A"], currentTurnIndex := 0 } : Room).users.length :=
  registry_invariant [Event.join "A" "r1"] "r1"
    { users := ["A"], currentTurnIndex := 0 } (by decide)

/-- The registry effect of one `passTurn` call, with the broadcast
discarded. -/
def advanceRegistry (roomName : String) (rs : Registry) : Registry :=
  (passTurn rs roomName).1

theorem advanceRegistry_lookup (rs : Registry) (roomName : String) (room : Room)
    (hr : rs roomName = some room) (hn : 0 < room.users.length) :
    advanceRegistry roomName rs roomName =
      some { users := room.users,
             currentTurnIndex :=
               (room.currentTurnIndex + 1) % room.users.length } := by
  have h0 : ¬room.users.length = 0 := by omega
  simp only [advanceRegistry, passTurn, hr, h0, ite_false, setRoom_same]

theorem advanceRegistry_iterate (rs : Registry) (roomName : String) (room : Room)
    (hr : rs roomName = some room) (hn : 0 < room.users.length)
    (hi : room.currentTurnIndex < room.users.length) :
    ∀ k, (advanceRegistry roomName)^[k] rs roomName =
      some { users := room.users,
             currentTurnIndex :=
               (room.currentTurnIndex + k) % room.users.length } := by
  intro k
  induction k with
  | zero =>
      have harith : (room.currentTurnIndex + 0) % room.users.length =
          room.currentTurnIndex := by
        rw [Nat.add_zero]
        exact Nat.mod_eq_of_lt hi
      rw [Function.iterate_zero, id_eq, harith]
      exact hr
  | succ k ih =>
      rw [Function.iterate_succ_apply']
      rw [advanceRegistry_lookup ((advanceRegistry roomName)^[k] rs) roomName
        { users := room.users,
          currentTurnIndex := (room.currentTurnIndex + k) % room.users.length }
        ih hn]
      rw [Option.some_inj]
      have harith :
          ((room.currentTurnIndex + k) % room.users.length + 1) % room.users.length =
          (room.currentTurnIndex + (k + 1)) % room.users.length := by
        rw [Nat.mod_add_mod, Nat.add_assoc]
      rw [harith]

theorem advanceRegistry_visits (rs : Registry) (roomName : String) (room : Room)
    (hr : rs roomName = some room) (hn : 0 < room.users.length)
    (hi : room.currentTurnIndex < room.users.length) :
    (List.range room.users.length).map
        (fun k => getActiveUser ((advanceRegistry roomName)^[k + 1] rs) roomName) =
      (room.users.rotate (room.currentTurnIndex + 1)).map some := by
  apply List.ext_getElem
  · simp
  · intro j h1 h2
    have hj : j < room.users.length := by simpa using h1
    rw [List.getElem_map, List.getElem_map, List.getElem_range, List.getElem_rotate]
    have hlook := advanceRegistry_iterate rs roomName room hr hn hi (j + 1)
    have harith : room.currentTurnIndex + (j + 1) =
        j + (room.currentTurnIndex + 1) := by omega
    rw [harith] at hlook
    simp only [getActiveUser, hlook]
    have hne : ¬room.users.length = 0 := by omega
    rw [if_neg hne]
    rw [List.getElem?_eq_getElem
      (Nat.mod_lt _ (by omega : 0 < room.users.length))]

/-- C4: `passTurn` on an absent or empty room changes nothing and sends
nothing; on a present room with members and an in-bounds index it sets the
index to `(activeIndex + 1) mod n` on each call, `n` consecutive calls
return the index to its starting value, and the active users seen over
those `n` calls are a permutation of the member list (each member holds
the turn exactly once per cycle, cyclically in join order). -/
theorem round_robin (rs : Registry) (roomName : String) :
    (rs roomName = none → passTurn rs roomName = (rs, [])) ∧
    (∀ room, rs roomName = some room → room.users.length = 0 →
      passTurn rs roomName = (rs, [])) ∧
    (∀ room, rs roomName = some room → 0 < room.users.length →
      room.currentTurnIndex < room.users.length →
      (∀ k, (advanceRegistry roomName)^[k] rs roomName =
        some { users := room.users,
               currentTurnIndex :=
                 (room.currentTurnIndex + k) % room.users.length }) ∧
      (advanceRegistry roomName)^[room.users.length] rs roomName = some room ∧
      ((List.range room.users.length).map
          (fun k => getActiveUser ((advanceRegistry roomName)^[k + 1] rs)
            roomName)).Perm
        (room.users.map some)) := by
  refine ⟨?_, ?_, ?_⟩
  · intro h
    simp only [passTurn, h]
  · intro room h h0
    simp only [passTurn, h, h0, ite_true]
  · intro room h hn hi
    refine ⟨advanceRegistry_iterate rs roomName room h hn hi, ?_, ?_⟩
    · rw [advanceRegistry_iterate rs roomName room h hn hi room.users.length]
      rw [Option.some_inj]
      have harith : (room.currentTurnIndex + room.users.length) %
          room.users.length = room.currentTurnIndex := by
        rw [Nat.add_mod_right]
        exact Nat.mod_eq_of_lt hi
      rw [harith]
    · rw [advanceRegistry_visits rs roomName room h hn hi]
      exact (List.rotate_perm room.users (room.currentTurnIndex + 1)).map some

/-- C4 witness: in r1 = [A, B, C] starting at index 0, one pass-turn moves
the index to 1, three pass-turns return it to 0, and the three active
users seen along the way are a permutation of the members. -/
theorem round_robin_witness :
    (advanceRegistry "r1")^[1] sampleState.rooms "r1" =
      some { users := ["A", "B", "C"], currentTurnIndex := (0 + 1) % 3 } ∧
    (advanceRegistry "r1")^[3] sampleState.rooms "r1" =
      some { users := ["A", "B", "C"], currentTurnIndex := 0 } ∧
    ((List.range 3).map
        (fun k => getActiveUser ((advanceRegistry "r1")^[k + 1] sampleState.rooms)
          "r1")).Perm ((["A", "B", "C"] : List String).map some) := by
  have h := (round_robin sampleState.rooms "r1").2.2
    { users := ["A", "B", "C"], currentTurnIndex := 0 }
    (by decide) (by decide) (by decide)
  exact ⟨h.1 1, h.2.1, h.2.2⟩
